import Mathlib

/-
Verification of the QuantBook research backtesting framework:
the `StrategyTester` ledger and execution engine (`tester.py`) and the
coordinate-descent driver `optimize_parameters` (`parameter_optimizer.py`).

Modelling conventions:
* Python floats are modelled as exact rationals (ℚ); timestamps as ℕ.
* A bar is represented by its close price, the only field the engine reads.
* `dict` lookups are association-list lookups; Python's insertion-ordered
  `dict` writes become list appends, key updates become in-place maps.
* Code that can raise (`df.loc[...]` on a missing key, `order['cash_allocation']`
  on a missing key) returns `Except ExecError`.
* Division by zero follows the total-field convention `q / 0 = 0`.
-/

namespace QC

/-- Python `int(x)`: truncation toward zero of a rational. -/
def pyInt (q : ℚ) : ℤ := q.num.tdiv q.den

/-- `Position.direction` field: the strings `'long'` / `'short'`. -/
inductive Direction where
  | long
  | short
deriving DecidableEq, Repr

/-- The `Position` dataclass. The only metadata entry the framework itself
reads is `metadata['portfolio_weight_at_entry']`, modelled as a field. -/
structure Position where
  symbol : String
  direction : Direction
  entry_time : ℕ
  entry_price : ℚ
  quantity : ℤ
  portfolio_weight_at_entry : ℚ
deriving DecidableEq, Repr

/-- The `Trade` dataclass (completed trade record). -/
structure Trade where
  symbol : String
  direction : Direction
  entry_time : ℕ
  entry_price : ℚ
  exit_time : ℕ
  exit_price : ℚ
  quantity : ℤ
  pnl : ℚ
  return_pct : ℚ
  portfolio_weight : ℚ
deriving DecidableEq, Repr

/-- An order intent dict produced by a strategy. `price` and
`cash_allocation` are `none` when the corresponding key is absent.
`action` is an arbitrary string, as in the source. -/
structure Order where
  symbol : String
  action : String
  price : Option ℚ
  cash_allocation : Option ℚ
deriving DecidableEq, Repr

/-- `self.data`: symbol → (timestamp → close price). -/
abbrev MarketData := List (String × List (ℕ × ℚ))

/-- `self.data[symbol].loc[t]['close']`; `none` when the symbol is not
loaded or has no bar at `t` (Python raises a lookup error). -/
def findBar (data : MarketData) (symbol : String) (t : ℕ) : Option ℚ :=
  (data.lookup symbol).bind fun df => df.lookup t

/-- The mutable trading state of a `StrategyTester`:
`self.cash`, `self.positions`, `self.trades`, `self.equity_curve`. -/
structure TState where
  cash : ℚ
  positions : List (String × Position)
  trades : List Trade
  equity_curve : List (ℕ × ℚ)
deriving DecidableEq, Repr

/-- The state right after the reset at the top of `run`. -/
def initState (initial_cash : ℚ) : TState :=
  { cash := initial_cash, positions := [], trades := [], equity_curve := [] }

/-- Exceptions `_execute_order` can raise: the unconditional
`self.data[symbol].loc[self.current_time]` lookup, and the
`order['cash_allocation']` key access. -/
inductive ExecError where
  | lookupError
  | keyError
deriving DecidableEq, Repr

/-- `StrategyTester._execute_order`, translated branch for branch from
`tester.py` lines 202-301. -/
def execute_order (data : MarketData) (t : ℕ) (st : TState) (o : Order) :
    Except ExecError TState :=
  match findBar data o.symbol t with
  | none => .error .lookupError
  | some close =>
    let price := o.price.getD close
    if o.action = "buy" ∧ st.positions.lookup o.symbol = none then
      match o.cash_allocation with
      | none => .error .keyError
      | some alloc =>
        let quantity := pyInt (st.cash * alloc / price)
        if 0 < quantity then
          .ok { st with
                cash := st.cash - quantity * price,
                positions := st.positions ++
                  [(o.symbol,
                    { symbol := o.symbol, direction := .long, entry_time := t,
                      entry_price := price, quantity := quantity,
                      portfolio_weight_at_entry := alloc })] }
        else .ok st
    else if o.action = "sell" ∧ st.positions.lookup o.symbol = none then
      match o.cash_allocation with
      | none => .error .keyError
      | some alloc =>
        let quantity := pyInt (st.cash * alloc / price)
        if 0 < quantity then
          .ok { st with
                cash := st.cash - quantity * price,
                positions := st.positions ++
                  [(o.symbol,
                    { symbol := o.symbol, direction := .short, entry_time := t,
                      entry_price := price, quantity := quantity,
                      portfolio_weight_at_entry := alloc })] }
        else .ok st
    else if o.action = "close" then
      match st.positions.lookup o.symbol with
      | none => .ok st
      | some position =>
        let pnl :=
          if position.direction = .long then
            (price - position.entry_price) * position.quantity
          else
            (position.entry_price - price) * position.quantity
        let return_pct :=
          if position.direction = .long then
            (price - position.entry_price) / position.entry_price
          else
            (position.entry_price - price) / position.entry_price
        .ok { st with
              cash := st.cash + position.entry_price * position.quantity + pnl,
              trades := st.trades ++
                [{ symbol := o.symbol, direction := position.direction,
                   entry_time := position.entry_time,
                   entry_price := position.entry_price, exit_time := t,
                   exit_price := price, quantity := position.quantity,
                   pnl := pnl, return_pct := return_pct,
                   portfolio_weight := position.portfolio_weight_at_entry }],
              positions := st.positions.eraseP (fun kv => kv.1 == o.symbol) }
    else .ok st

/-- Executing a list of `(timestamp, order)` pairs in sequence
(each one a `_execute_order` call; an exception aborts the sequence). -/
def runOrders (data : MarketData) :
    List (ℕ × Order) → TState → Except ExecError TState
  | [], st => .ok st
  | (t, o) :: os, st =>
    match execute_order data t st o with
    | .error e => .error e
    | .ok st' => runOrders data os st'

/-- The `current_bars` snapshot built at the top of each `run` iteration:
every configured symbol that has a bar at this timestamp, with its bar. -/
def snapshot (data : MarketData) (symbols : List String) (t : ℕ) :
    List (String × ℚ) :=
  symbols.filterMap fun s => (findBar data s t).map fun c => (s, c)

/-- `StrategyTester._calculate_equity`: cash plus, for each open position
whose symbol is in `current_bars`, its mark-to-market value. -/
def calculate_equity (bars : List (String × ℚ)) (st : TState) : ℚ :=
  st.positions.foldl
    (fun equity kv =>
      match bars.lookup kv.1 with
      | none => equity
      | some current_price =>
        if kv.2.direction = .long then
          equity + kv.2.quantity * current_price
        else
          equity + kv.2.quantity * (2 * kv.2.entry_price - current_price))
    st.cash

/-- A strategy callback: receives the current time, the `current_bars`
snapshot and the tester state, returns a list of order intents.
(Strategy parameters are folded into the closure.) -/
abbrev Strategy := ℕ → List (String × ℚ) → TState → List Order

/-- The body of the `run` loop for one bar: snapshot current bars, call the
strategy, execute the returned orders in sequence, then append
`(timestamp, equity)` to the equity curve. -/
def runBar (data : MarketData) (symbols : List String) (strat : Strategy)
    (st : TState) (t : ℕ) : Except ExecError TState :=
  let bars := snapshot data symbols t
  match runOrders data ((strat t bars st).map fun o => (t, o)) st with
  | .error e => .error e
  | .ok st' =>
    .ok { st' with equity_curve := st'.equity_curve ++ [(t, calculate_equity bars st')] }

/-- The `run` loop over the full timestamp sequence. -/
def runLoop (data : MarketData) (symbols : List String) (strat : Strategy) :
    List ℕ → TState → Except ExecError TState
  | [], st => .ok st
  | t :: ts, st =>
    match runBar data symbols strat st t with
    | .error e => .error e
    | .ok st' => runLoop data symbols strat ts st'

/-- `StrategyTester.run`: reset the state, then iterate over the timestamps
of the first symbol's data frame. -/
def run (data : MarketData) (symbols : List String) (strat : Strategy)
    (initial_cash : ℚ) : Except ExecError TState :=
  let ts := match symbols with
    | [] => []
    | s :: _ => ((data.lookup s).getD []).map Prod.fst
  runLoop data symbols strat ts (initState initial_cash)

/-- The mark-to-market value of the open positions that have a bar in the
current snapshot: `quantity × price` for a long position and
`quantity × (2 × entry_price − price)` for a short one. -/
def markSum (bars : List (String × ℚ)) (ps : List (String × Position)) : ℚ :=
  (ps.filterMap fun kv =>
    (bars.lookup kv.1).map fun c =>
      if kv.2.direction = .long then (kv.2.quantity : ℚ) * c
      else (kv.2.quantity : ℚ) * (2 * kv.2.entry_price - c)).sum

/-! ### Statistics (`StrategyTester.get_stats`) -/

/-- A Python float that may be `np.inf` (used by `profit_factor` and
`calmar`, whose fallback value is `np.inf`). -/
inductive PyVal where
  | val (q : ℚ)
  | inf
deriving DecidableEq, Repr

/-- `trades_df['return']`. -/
def returnsOf (trades : List Trade) : List ℚ := trades.map (·.return_pct)

/-- `trades_df['portfolio_weight']`. -/
def weightsOf (trades : List Trade) : List ℚ := trades.map (·.portfolio_weight)

/-- `wins = trades_df[trades_df['return'] > 0]`. -/
def wins (trades : List Trade) : List Trade :=
  trades.filter fun tr => decide (0 < tr.return_pct)

/-- `losses = trades_df[trades_df['return'] < 0]`. -/
def losses (trades : List Trade) : List Trade :=
  trades.filter fun tr => decide (tr.return_pct < 0)

/-- `weights.sum()`. -/
def weightsSum (trades : List Trade) : ℚ := (weightsOf trades).sum

/-- `weights_normalized = weights / weights.sum() if weights.sum() > 0 else weights`. -/
def normalizedWeights (trades : List Trade) : List ℚ :=
  if 0 < weightsSum trades then
    (weightsOf trades).map fun w => w / weightsSum trades
  else
    weightsOf trades

/-- `weighted_mean_return = (returns * weights_normalized).sum()`. -/
def weighted_mean_return (trades : List Trade) : ℚ :=
  (List.zipWith (fun r w => r * w) (returnsOf trades) (normalizedWeights trades)).sum

/-- `weighted_variance = (weights_normalized * (returns - weighted_mean)**2).sum()`. -/
def weighted_variance (trades : List Trade) : ℚ :=
  (List.zipWith (fun w r => w * (r - weighted_mean_return trades) ^ 2)
    (normalizedWeights trades) (returnsOf trades)).sum

/-- `weighted_std = np.sqrt(weighted_variance) if weighted_variance > 0 else 0`. -/
noncomputable def weighted_std (trades : List Trade) : ℝ :=
  if 0 < weighted_variance trades then
    Real.sqrt (weighted_variance trades)
  else 0

/-- `stats['sharpe_ratio']`:
`(weighted_mean_return / weighted_std * np.sqrt(252)) if weighted_std > 0 else 0`. -/
noncomputable def sharpe (trades : List Trade) : ℝ :=
  if 0 < weighted_std trades then
    (weighted_mean_return trades : ℝ) / weighted_std trades * Real.sqrt 252
  else 0

/-- `wins['pnl'].sum()`. -/
def winsPnlSum (trades : List Trade) : ℚ := ((wins trades).map (·.pnl)).sum

/-- `losses['pnl'].sum()`. -/
def lossesPnlSum (trades : List Trade) : ℚ := ((losses trades).map (·.pnl)).sum

/-- `stats['profit_factor']`:
`abs(wins['pnl'].sum() / losses['pnl'].sum()) if len(losses) > 0 and
losses['pnl'].sum() != 0 else np.inf`. -/
def profit_factor (trades : List Trade) : PyVal :=
  if 0 < (losses trades).length ∧ lossesPnlSum trades ≠ 0 then
    .val |winsPnlSum trades / lossesPnlSum trades|
  else .inf

/-- `equity_series.cummax()`, given the running maximum so far. -/
def cummaxAux (m : ℚ) : List ℚ → List ℚ
  | [] => []
  | e :: es => max m e :: cummaxAux (max m e) es

/-- `running_max = equity_series.cummax()`. -/
def cummax : List ℚ → List ℚ
  | [] => []
  | e :: es => e :: cummaxAux e es

/-- `drawdown = (equity_series - running_max) / running_max`. -/
def drawdowns (es : List ℚ) : List ℚ :=
  List.zipWith (fun e m => (e - m) / m) es (cummax es)

/-- `stats['max_drawdown'] = drawdown.min()` (0 for an empty series,
where pandas would give NaN). -/
def max_drawdown (es : List ℚ) : ℚ :=
  match drawdowns es with
  | [] => 0
  | d :: ds => ds.foldl min d

/-- `total_return = (equity_curve[-1][1] - initial_cash) / initial_cash`. -/
def total_return (curve : List (ℕ × ℚ)) (initial_cash : ℚ) : ℚ :=
  ((curve.map Prod.snd).getLastD 0 - initial_cash) / initial_cash

/-- `stats['calmar_ratio']`:
`total_return / abs(max_drawdown) if max_drawdown != 0 else np.inf`. -/
def calmar (curve : List (ℕ × ℚ)) (initial_cash : ℚ) : PyVal :=
  if max_drawdown (curve.map Prod.snd) ≠ 0 then
    .val (total_return curve initial_cash / |max_drawdown (curve.map Prod.snd)|)
  else .inf

/-! ### Parameter search (`parameter_optimizer.py`, `optimize_parameters`) -/

/-- Stable sorted insertion (helper for `isort`). -/
def insertSorted (le : α → α → Bool) (a : α) : List α → List α
  | [] => [a]
  | b :: bs => if le a b then a :: b :: bs else b :: insertSorted le a bs

/-- Stable insertion sort, modelling Python's stable `sorted` and the
sorted output of pandas `sort_values`. -/
def isort (le : α → α → Bool) : List α → List α
  | [] => []
  | a :: as => insertSorted le a (isort le as)

/-- A parameter combination: the `params` dict, name → value, in the fixed
key order of the grid. Values are numeric (the `HH:MM`-string branch of the
source is not exercised by numeric grids). -/
abbrev Params := List (String × ℚ)

/-- A statistics dict as returned by `get_stats` (`[]` is the empty dict
returned when no trades executed, which is falsy in Python). -/
abbrev Stats := List (String × ℚ)

/-- A backtest oracle: `StrategyTester(**config).run(strategy, params)
.get_stats()` as a function of the parameter combination. -/
abbrev Backtest := Params → Stats

/-- `get_default_value`: middle element of the sorted value list. -/
def get_default_value (values : List ℚ) : ℚ :=
  let sorted_vals := isort (fun a b => decide (a ≤ b)) values
  (sorted_vals.get? (sorted_vals.length / 2)).getD 0

/-- `get_cache_key`: the `(name, value)` pairs sorted by name
(`sorted(params.items())`; names are distinct, values already plain). -/
def get_cache_key (params : Params) : Params :=
  isort (fun a b => decide (a.1 ≤ b.1)) params

/-- `result[metric]` for a result row (pandas raises on a missing metric
column; totalized with default 0, unused by honest inputs). -/
def metricOf (metric : String) (r : Params × Stats) : ℚ :=
  (r.2.lookup metric).getD 0

/-- `param_df[metric].idxmax()` composed with `.loc`: the first row
achieving the maximum metric. -/
def idxmaxRow (metric : String) : List (Params × Stats) → Option (Params × Stats)
  | [] => none
  | r :: rs =>
    some (rs.foldl (fun best y => if metricOf metric best < metricOf metric y then y else best) r)

/-- `test_params = current_best.copy(); test_params[param_name] = param_value`
(an in-place update of an existing dict key). -/
def setParam (ps : Params) (name : String) (v : ℚ) : Params :=
  ps.map fun kv => if kv.1 = name then (kv.1, v) else kv

/-- The mutable state of `optimize_parameters`: the memoization `cache`,
the `all_results` accumulator and `current_best`; `trace` instruments the
backtest invocations (each `StrategyTester(**tester_config)` run). -/
structure OptState where
  cache : List (Params × Stats)
  all_results : List (Params × Stats)
  current_best : Params
  trace : List Params
deriving DecidableEq, Repr

/-- The body of the `for param_value in param_grid[param_name]` loop:
cache lookup or fresh backtest, then the conditional appends to
`param_results` (returned) and `all_results`. -/
def tryValue (bt : Backtest) (st : OptState) (p : Params) :
    OptState × Option (Params × Stats) :=
  match st.cache.lookup (get_cache_key p) with
  | some stats =>
    (st, if stats ≠ [] then some (p, stats) else none)
  | none =>
    let stats := bt p
    let st' := { st with
                 trace := st.trace ++ [p],
                 cache := if stats ≠ [] then st.cache ++ [(get_cache_key p, stats)]
                          else st.cache }
    if stats ≠ [] then
      ({ st' with all_results := st'.all_results ++ [(p, stats)] }, some (p, stats))
    else (st', none)

/-- The sweep over all candidate values of one parameter, accumulating
`param_results`. -/
def sweepValues (bt : Backtest) (name : String) (values : List ℚ)
    (st : OptState) : OptState × List (Params × Stats) :=
  values.foldl
    (fun acc v =>
      let p := setParam acc.1.current_best name v
      let (st', r) := tryValue bt acc.1 p
      (st', acc.2 ++ r.toList))
    (st, [])

/-- Optimizing a single parameter: sweep its values, then move
`current_best[param_name]` to the best row's value (first maximum wins);
no update when `param_results` is empty. -/
def sweepParam (bt : Backtest) (grid : List (String × List ℚ)) (metric : String)
    (st : OptState) (name : String) : OptState :=
  let (st', param_results) := sweepValues bt name ((grid.lookup name).getD []) st
  match idxmaxRow metric param_results with
  | none => st'
  | some best_row =>
    { st' with current_best := setParam st'.current_best name ((best_row.1.lookup name).getD 0) }

/-- One full pass: optimize each parameter in sequence. -/
def sweepPass (bt : Backtest) (grid : List (String × List ℚ)) (metric : String)
    (names : List String) (st : OptState) : OptState :=
  names.foldl (sweepParam bt grid metric) st

/-- The `while pass_num < max_passes` loop with the convergence `break`:
stop when a pass leaves `current_best` unchanged. -/
def optLoop (bt : Backtest) (grid : List (String × List ℚ)) (metric : String)
    (names : List String) : ℕ → OptState → OptState
  | 0, st => st
  | fuel + 1, st =>
    let previous_best := st.current_best
    let st' := sweepPass bt grid metric names st
    if st'.current_best = previous_best then st'
    else optLoop bt grid metric names fuel st'

/-- `optimize_parameters`: coordinate descent from the per-parameter median
defaults, returning `all_results` sorted descending by the metric, plus the
final driver state (whose `trace` lists the backtests actually run). -/
def optimize_parameters (bt : Backtest) (grid : List (String × List ℚ))
    (metric : String) (max_passes : ℕ) : List (Params × Stats) × OptState :=
  let names := grid.map Prod.fst
  let defaults := names.map fun n => (n, get_default_value ((grid.lookup n).getD []))
  let st := optLoop bt grid metric names max_passes
    { cache := [], all_results := [], current_best := defaults, trace := [] }
  (isort (fun a b => decide (metricOf metric b ≤ metricOf metric a)) st.all_results, st)

/-! ### Derived descriptions of the `_execute_order` branches -/

/-- The state produced by a successful `buy`/`sell` branch. -/
def openResult (st : TState) (sym : String) (t : ℕ) (dir : Direction)
    (price alloc : ℚ) : TState :=
  let quantity := pyInt (st.cash * alloc / price)
  { st with
    cash := st.cash - quantity * price,
    positions := st.positions ++
      [(sym, { symbol := sym, direction := dir, entry_time := t,
               entry_price := price, quantity := quantity,
               portfolio_weight_at_entry := alloc })] }

/-- Realized pnl of a close at `price`. -/
def closePnl (price : ℚ) (p : Position) : ℚ :=
  if p.direction = .long then (price - p.entry_price) * p.quantity
  else (p.entry_price - price) * p.quantity

/-- Return fraction of a close at `price`. -/
def closeReturnPct (price : ℚ) (p : Position) : ℚ :=
  if p.direction = .long then (price - p.entry_price) / p.entry_price
  else (p.entry_price - price) / p.entry_price

/-- The `Trade` appended by a close. -/
def closeTrade (sym : String) (t : ℕ) (price : ℚ) (p : Position) : Trade :=
  { symbol := sym, direction := p.direction, entry_time := p.entry_time,
    entry_price := p.entry_price, exit_time := t, exit_price := price,
    quantity := p.quantity, pnl := closePnl price p,
    return_pct := closeReturnPct price p,
    portfolio_weight := p.portfolio_weight_at_entry }

/-- The state produced by a successful `close` branch. -/
def closeResult (st : TState) (sym : String) (t : ℕ) (price : ℚ)
    (p : Position) : TState :=
  { st with
    cash := st.cash + p.entry_price * p.quantity + closePnl price p,
    trades := st.trades ++ [closeTrade sym t price p],
    positions := st.positions.eraseP fun kv => kv.1 == sym }

section ExecLemmas

variable {data : MarketData} {t : ℕ} {st st' : TState} {o : Order}

theorem execute_order_noBar (h : findBar data o.symbol t = none) :
    execute_order data t st o = .error .lookupError := by
  unfold execute_order
  rw [h]

theorem execute_order_close_some {c : ℚ} {p : Position}
    (hbar : findBar data o.symbol t = some c) (hact : o.action = "close")
    (hpos : st.positions.lookup o.symbol = some p) :
    execute_order data t st o = .ok (closeResult st o.symbol t (o.price.getD c) p) := by
  unfold execute_order
  rw [hbar]
  simp [hact, hpos, closeResult, closeTrade, closePnl, closeReturnPct]

theorem execute_order_close_none {c : ℚ}
    (hbar : findBar data o.symbol t = some c) (hact : o.action = "close")
    (hpos : st.positions.lookup o.symbol = none) :
    execute_order data t st o = .ok st := by
  unfold execute_order
  rw [hbar]
  simp [hact, hpos]

theorem execute_order_open {c alloc : ℚ} {dir : Direction}
    (hbar : findBar data o.symbol t = some c)
    (hact : (o.action = "buy" ∧ dir = .long) ∨ (o.action = "sell" ∧ dir = .short))
    (hpos : st.positions.lookup o.symbol = none)
    (halloc : o.cash_allocation = some alloc)
    (hq : 0 < pyInt (st.cash * alloc / o.price.getD c)) :
    execute_order data t st o = .ok (openResult st o.symbol t dir (o.price.getD c) alloc) := by
  unfold execute_order
  rw [hbar]
  rcases hact with ⟨hact, hdir⟩ | ⟨hact, hdir⟩ <;>
    subst hdir <;>
    simp [hact, hpos, halloc, hq, openResult]

theorem execute_order_open_dropped {c alloc : ℚ}
    (hbar : findBar data o.symbol t = some c)
    (hact : o.action = "buy" ∨ o.action = "sell")
    (hpos : st.positions.lookup o.symbol = none)
    (halloc : o.cash_allocation = some alloc)
    (hq : ¬ 0 < pyInt (st.cash * alloc / o.price.getD c)) :
    execute_order data t st o = .ok st := by
  unfold execute_order
  rw [hbar]
  rcases hact with hact | hact <;>
    simp [hact, hpos, halloc, hq]

theorem execute_order_open_missing_alloc {c : ℚ}
    (hbar : findBar data o.symbol t = some c)
    (hact : o.action = "buy" ∨ o.action = "sell")
    (hpos : st.positions.lookup o.symbol = none)
    (halloc : o.cash_allocation = none) :
    execute_order data t st o = .error .keyError := by
  unfold execute_order
  rw [hbar]
  rcases hact with hact | hact <;>
    simp [hact, hpos, halloc]

theorem execute_order_open_occupied {c : ℚ}
    (hbar : findBar data o.symbol t = some c)
    (hact : o.action = "buy" ∨ o.action = "sell")
    (hpos : (st.positions.lookup o.symbol).isSome) :
    execute_order data t st o = .ok st := by
  rcases hp : st.positions.lookup o.symbol with _ | p
  · rw [hp] at hpos
    simp at hpos
  · unfold execute_order
    rw [hbar]
    rcases hact with hact | hact <;> simp [hact, hp]

/-- Exhaustive description of the successful outcomes of `_execute_order`:
either an ignored branch (state unchanged), a position opening, or a close. -/
theorem execute_order_ok_cases (h : execute_order data t st o = .ok st') :
    st' = st ∨
    (∃ c alloc dir,
      findBar data o.symbol t = some c ∧
      o.cash_allocation = some alloc ∧
      st.positions.lookup o.symbol = none ∧
      ((o.action = "buy" ∧ dir = .long) ∨ (o.action = "sell" ∧ dir = .short)) ∧
      0 < pyInt (st.cash * alloc / o.price.getD c) ∧
      st' = openResult st o.symbol t dir (o.price.getD c) alloc) ∨
    (∃ c p,
      findBar data o.symbol t = some c ∧
      o.action = "close" ∧
      st.positions.lookup o.symbol = some p ∧
      st' = closeResult st o.symbol t (o.price.getD c) p) := by
  rcases hbar : findBar data o.symbol t with _ | c
  · rw [execute_order_noBar hbar] at h
    exact absurd h (by simp)
  by_cases hbuy : o.action = "buy" ∧ st.positions.lookup o.symbol = none
  · rcases halloc : o.cash_allocation with _ | alloc
    · rw [execute_order_open_missing_alloc hbar (Or.inl hbuy.1) hbuy.2 halloc] at h
      exact absurd h (by simp)
    by_cases hq : 0 < pyInt (st.cash * alloc / o.price.getD c)
    · rw [execute_order_open hbar (Or.inl ⟨hbuy.1, rfl⟩) hbuy.2 halloc hq] at h
      cases h
      exact Or.inr (Or.inl ⟨c, alloc, .long, rfl, rfl, hbuy.2, Or.inl ⟨hbuy.1, rfl⟩, hq, rfl⟩)
    · rw [execute_order_open_dropped hbar (Or.inl hbuy.1) hbuy.2 halloc hq] at h
      cases h
      exact Or.inl rfl
  by_cases hsell : o.action = "sell" ∧ st.positions.lookup o.symbol = none
  · rcases halloc : o.cash_allocation with _ | alloc
    · rw [execute_order_open_missing_alloc hbar (Or.inr hsell.1) hsell.2 halloc] at h
      exact absurd h (by simp)
    by_cases hq : 0 < pyInt (st.cash * alloc / o.price.getD c)
    · rw [execute_order_open hbar (Or.inr ⟨hsell.1, rfl⟩) hsell.2 halloc hq] at h
      cases h
      exact Or.inr (Or.inl ⟨c, alloc, .short, rfl, rfl, hsell.2, Or.inr ⟨hsell.1, rfl⟩, hq, rfl⟩)
    · rw [execute_order_open_dropped hbar (Or.inr hsell.1) hsell.2 halloc hq] at h
      cases h
      exact Or.inl rfl
  by_cases hclose : o.action = "close"
  · rcases hp : st.positions.lookup o.symbol with _ | p
    · rw [execute_order_close_none hbar hclose hp] at h
      cases h
      exact Or.inl rfl
    · rw [execute_order_close_some hbar hclose hp] at h
      cases h
      exact Or.inr (Or.inr ⟨c, p, rfl, hclose, rfl, rfl⟩)
  · have hnoop : execute_order data t st o = .ok st := by
      unfold execute_order
      rw [hbar]
      dsimp only
      rw [if_neg hbuy, if_neg hsell, if_neg hclose]
    rw [hnoop] at h
    cases h
    exact Or.inl rfl

end ExecLemmas

/-! ### Ledger conservation and the position-key invariant -/

/-- The conserved ledger quantity:
`cash + Σ_{open positions} entry_price × quantity − Σ_{closed trades} pnl`. -/
def ledgerInvariant (st : TState) : ℚ :=
  st.cash + (st.positions.map fun kv => kv.2.entry_price * (kv.2.quantity : ℚ)).sum
    - (st.trades.map Trade.pnl).sum

theorem sum_map_eraseP_of_lookup (f : String × Position → ℚ)
    (l : List (String × Position)) :
    ∀ (sym : String) (p : Position), l.lookup sym = some p →
      (l.map f).sum = f (sym, p) + ((l.eraseP fun kv => kv.1 == sym).map f).sum := by
  induction l with
  | nil => intro sym p h; simp at h
  | cons kv rest ih =>
    intro sym p h
    rcases kv with ⟨k, v⟩
    rcases eq_or_ne sym k with hk | hk
    · subst hk
      have hv : v = p := by simpa [List.lookup_cons] using h
      subst hv
      have he : (((sym, v) :: rest).eraseP fun kv => kv.1 == sym) = rest := by
        simp [List.eraseP_cons]
      rw [he]
      simp
    · have hbeq : (sym == k) = false := by simpa using hk
      have h' : rest.lookup sym = some p := by
        simpa [List.lookup_cons, hbeq] using h
      have he : (((k, v) :: rest).eraseP fun kv => kv.1 == sym) =
          (k, v) :: (rest.eraseP fun kv => kv.1 == sym) := by
        simp [List.eraseP_cons, Ne.symm hk]
      rw [he]
      simp only [List.map_cons, List.sum_cons, ih sym p h']
      ring

theorem lookup_none_not_mem_keys {α β : Type} [BEq α] [LawfulBEq α]
    [DecidableEq α] (l : List (α × β)) (a : α)
    (h : l.lookup a = none) : a ∉ l.map Prod.fst := by
  induction l with
  | nil => simp
  | cons kv rest ih =>
    rcases kv with ⟨k, v⟩
    rcases eq_or_ne a k with hk | hk
    · subst hk
      simp [List.lookup_cons] at h
    · have hbeq : (a == k) = false := by simpa using hk
      have h' : rest.lookup a = none := by
        simpa [List.lookup_cons, hbeq] using h
      simp only [List.map_cons, List.mem_cons, not_or]
      exact ⟨hk, ih h'⟩

section StepLemmas

variable {data : MarketData} {t : ℕ} {st st' : TState} {o : Order}

/-- Every branch of `_execute_order` preserves the ledger invariant. -/
theorem ledgerInvariant_step (h : execute_order data t st o = .ok st') :
    ledgerInvariant st' = ledgerInvariant st := by
  rcases execute_order_ok_cases h with rfl |
      ⟨c, alloc, dir, hbar, halloc, hpos, hact, hq, rfl⟩ |
      ⟨c, p, hbar, hact, hpos, rfl⟩
  · rfl
  · simp [ledgerInvariant, openResult]
    ring
  · have hsum := sum_map_eraseP_of_lookup
      (fun kv => kv.2.entry_price * (kv.2.quantity : ℚ)) st.positions o.symbol p hpos
    rcases hd : p.direction <;>
      simp [ledgerInvariant, closeResult, closeTrade, closePnl, hd, hsum] <;>
      ring

/-- `_execute_order` never touches the equity curve. -/
theorem equity_curve_step (h : execute_order data t st o = .ok st') :
    st'.equity_curve = st.equity_curve := by
  rcases execute_order_ok_cases h with rfl |
      ⟨c, alloc, dir, _, _, _, _, _, rfl⟩ | ⟨c, p, _, _, _, rfl⟩ <;> rfl

/-- Every branch of `_execute_order` keeps the position keys duplicate-free. -/
theorem nodup_keys_step (h : execute_order data t st o = .ok st')
    (hnd : (st.positions.map Prod.fst).Nodup) :
    (st'.positions.map Prod.fst).Nodup := by
  rcases execute_order_ok_cases h with rfl |
      ⟨c, alloc, dir, hbar, halloc, hpos, hact, hq, rfl⟩ |
      ⟨c, p, hbar, hact, hpos, rfl⟩
  · exact hnd
  · have hmem := lookup_none_not_mem_keys st.positions o.symbol hpos
    simp only [openResult, List.map_append, List.map_cons, List.map_nil,
      List.nodup_append]
    exact ⟨hnd, List.nodup_singleton _, by simpa [List.disjoint_right] using hmem⟩
  · exact ((List.eraseP_sublist st.positions).map Prod.fst).nodup hnd

end StepLemmas

section RunOrdersLemmas

variable {data : MarketData} {st st' : TState}

theorem runOrders_cons_ok {p : ℕ × Order} {os : List (ℕ × Order)}
    (h : runOrders data (p :: os) st = .ok st') :
    ∃ mid, execute_order data p.1 st p.2 = .ok mid ∧ runOrders data os mid = .ok st' := by
  rcases p with ⟨t, o⟩
  rcases he : execute_order data t st o with e | mid
  · simp [runOrders, he] at h
  · exact ⟨mid, rfl, by simpa [runOrders, he] using h⟩

theorem ledgerInvariant_runOrders :
    ∀ (os : List (ℕ × Order)) (st st' : TState),
      runOrders data os st = .ok st' → ledgerInvariant st' = ledgerInvariant st := by
  intro os
  induction os with
  | nil =>
    intro st st' h
    have : st = st' := by simpa [runOrders] using h
    rw [this]
  | cons p os ih =>
    intro st st' h
    obtain ⟨mid, h1, h2⟩ := runOrders_cons_ok h
    rw [ih mid st' h2, ledgerInvariant_step h1]

theorem nodup_keys_runOrders :
    ∀ (os : List (ℕ × Order)) (st st' : TState),
      runOrders data os st = .ok st' → (st.positions.map Prod.fst).Nodup →
      (st'.positions.map Prod.fst).Nodup := by
  intro os
  induction os with
  | nil =>
    intro st st' h hnd
    have : st = st' := by simpa [runOrders] using h
    rwa [this] at hnd
  | cons p os ih =>
    intro st st' h hnd
    obtain ⟨mid, h1, h2⟩ := runOrders_cons_ok h
    exact ih mid st' h2 (nodup_keys_step h1 hnd)

theorem equity_curve_runOrders :
    ∀ (os : List (ℕ × Order)) (st st' : TState),
      runOrders data os st = .ok st' → st'.equity_curve = st.equity_curve := by
  intro os
  induction os with
  | nil =>
    intro st st' h
    have : st = st' := by simpa [runOrders] using h
    rw [this]
  | cons p os ih =>
    intro st st' h
    obtain ⟨mid, h1, h2⟩ := runOrders_cons_ok h
    rw [ih mid st' h2, equity_curve_step h1]

end RunOrdersLemmas

/-! ### Concrete fixtures used by witnesses and counterexamples -/

/-- One instrument `SPY`, close 100 at `t = 0` and 110 at `t = 1`. -/
def demoData : MarketData := [("SPY", [(0, 100), (1, 110)])]

/-- Full-allocation buy of `SPY` at the market price. -/
def demoBuy : Order :=
  { symbol := "SPY", action := "buy", price := none, cash_allocation := some 1 }

/-- Close of `SPY` at the market price. -/
def demoClose : Order :=
  { symbol := "SPY", action := "close", price := none, cash_allocation := none }

/-- The open position created by `demoBuy` at `t = 0` from 10000 cash. -/
def demoPosition : Position :=
  { symbol := "SPY", direction := .long, entry_time := 0, entry_price := 100,
    quantity := 100, portfolio_weight_at_entry := 1 }

/-- The state after `demoBuy` executes at `t = 0` from 10000 cash:
quantity 100 at entry price 100, cash 0. -/
def demoPostBuy : TState :=
  { cash := 0, positions := [("SPY", demoPosition)], trades := [],
    equity_curve := [] }

/-- The state after `demoClose` executes at `t = 1` on `demoPostBuy`:
pnl 1000, cash 11000, one trade with return 10%. -/
def demoFinal : TState :=
  { cash := 11000,
    positions := [],
    trades := [{ symbol := "SPY", direction := .long, entry_time := 0,
                 entry_price := 100, exit_time := 1, exit_price := 110,
                 quantity := 100, pnl := 1000, return_pct := 1 / 10,
                 portfolio_weight := 1 }],
    equity_curve := [] }

/-! ### Claim C1 -/

/-- C1 (cash conservation): for every sequence of `_execute_order` calls from
a freshly reset state, if no positions remain open at the end then the final
cash equals the initial cash plus the sum of the `pnl` fields of the recorded
trades. -/
theorem cash_conservation (data : MarketData) (os : List (ℕ × Order))
    (initial_cash : ℚ) (st' : TState)
    (hrun : runOrders data os (initState initial_cash) = .ok st')
    (hflat : st'.positions = []) :
    st'.cash = initial_cash + (st'.trades.map Trade.pnl).sum := by
  have h := ledgerInvariant_runOrders os (initState initial_cash) st' hrun
  simp [ledgerInvariant, initState, hflat] at h
  linarith

/-- Witness for C1: the buy-then-close scenario from 10000 cash. -/
theorem cash_conservation_witness :
    demoFinal.cash = 10000 + (demoFinal.trades.map Trade.pnl).sum :=
  cash_conservation demoData [(0, demoBuy), (1, demoClose)] 10000 demoFinal
    (by with_unfolding_all rfl) (by with_unfolding_all rfl)

/-! ### Claim C2 -/

/-- C2 (at-most-one-position invariant): after any sequence of
`_execute_order` calls from a reset state the positions map has no duplicate
symbol, and a `buy`/`sell` for a symbol that already has an open position
leaves the state unchanged. -/
theorem at_most_one_position :
    (∀ (data : MarketData) (os : List (ℕ × Order)) (initial_cash : ℚ) (st' : TState),
      runOrders data os (initState initial_cash) = .ok st' →
      (st'.positions.map Prod.fst).Nodup) ∧
    (∀ (data : MarketData) (t : ℕ) (st : TState) (o : Order) (c : ℚ),
      findBar data o.symbol t = some c →
      o.action = "buy" ∨ o.action = "sell" →
      (st.positions.lookup o.symbol).isSome →
      execute_order data t st o = .ok st) := by
  constructor
  · intro data os initial_cash st' hrun
    exact nodup_keys_runOrders os (initState initial_cash) st' hrun (by simp [initState])
  · intro data t st o c hbar hact hpos
    exact execute_order_open_occupied hbar hact hpos

/-- Witness for C2: duplicate-free keys after the demo buy, and a second buy
of the same symbol is a no-op. -/
theorem at_most_one_position_witness :
    (demoPostBuy.positions.map Prod.fst).Nodup ∧
    execute_order demoData 1 demoPostBuy demoBuy = .ok demoPostBuy :=
  ⟨at_most_one_position.1 demoData [(0, demoBuy)] 10000 demoPostBuy
      (by with_unfolding_all rfl),
   at_most_one_position.2 demoData 1 demoPostBuy demoBuy 110
      (by with_unfolding_all rfl) (Or.inl rfl) (by with_unfolding_all rfl)⟩

/-! ### Claim C3 -/

theorem lookup_eq_none_of_not_mem_keys {α β : Type} [BEq α] [LawfulBEq α]
    [DecidableEq α] (l : List (α × β))
    (a : α) (h : a ∉ l.map Prod.fst) : l.lookup a = none := by
  induction l with
  | nil => rfl
  | cons kv rest ih =>
    rcases kv with ⟨k, v⟩
    simp only [List.map_cons, List.mem_cons, not_or] at h
    have hbeq : (a == k) = false := by simpa using h.1
    simp [List.lookup_cons, hbeq, ih h.2]

theorem lookup_eraseP_self {β : Type} (l : List (String × β)) (sym : String)
    (hnd : (l.map Prod.fst).Nodup) :
    (l.eraseP fun kv => kv.1 == sym).lookup sym = none := by
  induction l with
  | nil => rfl
  | cons kv rest ih =>
    rcases kv with ⟨k, v⟩
    simp only [List.map_cons, List.nodup_cons] at hnd
    rcases eq_or_ne k sym with hk | hk
    · subst hk
      have he : (((k, v) :: rest).eraseP fun kv => kv.1 == k) = rest := by
        simp [List.eraseP_cons]
      rw [he]
      exact lookup_eq_none_of_not_mem_keys rest k hnd.1
    · have he : (((k, v) :: rest).eraseP fun kv => kv.1 == sym) =
          (k, v) :: (rest.eraseP fun kv => kv.1 == sym) := by
        simp [List.eraseP_cons, hk]
      have hbeq : (sym == k) = false := by simpa using Ne.symm hk
      rw [he]
      simp [List.lookup_cons, hbeq, ih hnd.2]

/-- C3 (close accounting): a `close` against an open position realizes
pnl `(exit − entry) × qty` for a long and `(entry − exit) × qty` for a
short, adds `entry_price × qty + pnl` to cash, appends exactly one trade
carrying the position's stored entry-time allocation weight, and removes
the position. -/
theorem close_accounting (data : MarketData) (t : ℕ) (st : TState) (o : Order)
    (c : ℚ) (p : Position) (hbar : findBar data o.symbol t = some c)
    (hact : o.action = "close")
    (hpos : st.positions.lookup o.symbol = some p)
    (hnd : (st.positions.map Prod.fst).Nodup) :
    execute_order data t st o = .ok (closeResult st o.symbol t (o.price.getD c) p) ∧
    closePnl (o.price.getD c) p =
      (if p.direction = .long then (o.price.getD c - p.entry_price) * p.quantity
       else (p.entry_price - o.price.getD c) * p.quantity) ∧
    (closeResult st o.symbol t (o.price.getD c) p).cash =
      st.cash + p.entry_price * p.quantity + closePnl (o.price.getD c) p ∧
    (closeResult st o.symbol t (o.price.getD c) p).trades =
      st.trades ++ [closeTrade o.symbol t (o.price.getD c) p] ∧
    (closeTrade o.symbol t (o.price.getD c) p).portfolio_weight =
      p.portfolio_weight_at_entry ∧
    (closeTrade o.symbol t (o.price.getD c) p).pnl = closePnl (o.price.getD c) p ∧
    (closeResult st o.symbol t (o.price.getD c) p).positions.lookup o.symbol = none := by
  refine ⟨execute_order_close_some hbar hact hpos, rfl, rfl, rfl, rfl, rfl, ?_⟩
  exact lookup_eraseP_self st.positions o.symbol hnd

/-- Witness for C3: the concrete scenario — buy at 100 with full allocation
from 10000 cash gives quantity 100 and cash 0; the close at 110 yields pnl
1000, cash 11000 and one recorded trade with return 10%. -/
theorem close_accounting_witness :
    execute_order demoData 0 (initState 10000) demoBuy = .ok demoPostBuy ∧
    demoPostBuy.cash = 0 ∧
    (demoPostBuy.positions.map fun kv => kv.2.quantity) = [100] ∧
    execute_order demoData 1 demoPostBuy demoClose = .ok demoFinal ∧
    demoFinal.cash = 11000 ∧
    demoFinal.trades.map Trade.pnl = [1000] ∧
    demoFinal.trades.map Trade.return_pct = [1 / 10] ∧
    demoFinal.trades.map Trade.portfolio_weight = [1] ∧
    demoFinal.positions.lookup "SPY" = none := by
  refine ⟨by with_unfolding_all rfl, by with_unfolding_all rfl,
    by with_unfolding_all rfl, ?_, by with_unfolding_all rfl,
    by with_unfolding_all rfl, by with_unfolding_all rfl,
    by with_unfolding_all rfl, by with_unfolding_all rfl⟩
  have h := (close_accounting demoData 1 demoPostBuy demoClose 110 demoPosition
    (by with_unfolding_all rfl) rfl (by with_unfolding_all rfl) (by decide)).1
  with_unfolding_all exact h

/-! ### Claim C10 -/

/-- C10 (unconditional bar lookup): when the order's symbol has no bar at
the current timestamp (or is not a loaded symbol), `_execute_order` raises
the lookup error before dispatching on the action — regardless of the
action, of any explicit price override, and of the position state. -/
theorem unconditional_bar_lookup (data : MarketData) (t : ℕ) (st : TState)
    (o : Order) (h : findBar data o.symbol t = none) :
    execute_order data t st o = .error .lookupError :=
  execute_order_noBar h

/-- Witness for C10: a `close` with an explicit price override for a symbol
with no open position and no bar at the current time still raises. -/
theorem unconditional_bar_lookup_witness :
    execute_order demoData 7 (initState 10000)
      { symbol := "SPY", action := "close", price := some 123,
        cash_allocation := none } = .error .lookupError :=
  unconditional_bar_lookup demoData 7 (initState 10000)
    { symbol := "SPY", action := "close", price := some 123,
      cash_allocation := none } (by with_unfolding_all rfl)

/-! ### Claim C5 -/

/-- Counterexample to C5 as stated: a `buy` that omits `cash_allocation`
for a symbol with no open position raises a `KeyError`
(`order['cash_allocation']`), it is not silently dropped. -/
theorem invalid_order_counterexample :
    execute_order demoData 0 (initState 10000)
      { symbol := "SPY", action := "buy", price := none, cash_allocation := none } =
      .error .keyError ∧
    (Except.error ExecError.keyError : Except ExecError TState) ≠
      .ok (initState 10000) :=
  ⟨by with_unfolding_all rfl, by simp⟩

/-- C5 amended: an order whose computed quantity is non-positive is silently
dropped (state unchanged, no error); but a `buy`/`sell` with no open
position that omits `cash_allocation` raises a KeyError and aborts instead
of being dropped. -/
theorem invalid_order_handling :
    (∀ (data : MarketData) (t : ℕ) (st : TState) (o : Order) (c alloc : ℚ),
      findBar data o.symbol t = some c →
      o.action = "buy" ∨ o.action = "sell" →
      st.positions.lookup o.symbol = none →
      o.cash_allocation = some alloc →
      pyInt (st.cash * alloc / o.price.getD c) ≤ 0 →
      execute_order data t st o = .ok st) ∧
    (∀ (data : MarketData) (t : ℕ) (st : TState) (o : Order) (c : ℚ),
      findBar data o.symbol t = some c →
      o.action = "buy" ∨ o.action = "sell" →
      st.positions.lookup o.symbol = none →
      o.cash_allocation = none →
      execute_order data t st o = .error .keyError) := by
  constructor
  · intro data t st o c alloc hbar hact hpos halloc hq
    exact execute_order_open_dropped hbar hact hpos halloc (not_lt.mpr hq)
  · intro data t st o c hbar hact hpos halloc
    exact execute_order_open_missing_alloc hbar hact hpos halloc

/-- Witness for the amended C5: a buy of 0.1% of 10000 cash at price 100
computes quantity 0 and is dropped; a sell with no `cash_allocation`
raises. -/
theorem invalid_order_handling_witness :
    execute_order demoData 0 (initState 10000)
      { symbol := "SPY", action := "buy", price := none,
        cash_allocation := some (1 / 1000) } = .ok (initState 10000) ∧
    execute_order demoData 0 (initState 10000)
      { symbol := "SPY", action := "sell", price := none,
        cash_allocation := none } = .error .keyError :=
  ⟨invalid_order_handling.1 demoData 0 (initState 10000)
      { symbol := "SPY", action := "buy", price := none,
        cash_allocation := some (1 / 1000) } 100 (1 / 1000)
      (by with_unfolding_all rfl) (Or.inl rfl) (by with_unfolding_all rfl) rfl
      (of_decide_eq_true (by with_unfolding_all rfl)),
   invalid_order_handling.2 demoData 0 (initState 10000)
      { symbol := "SPY", action := "sell", price := none,
        cash_allocation := none } 100
      (by with_unfolding_all rfl) (Or.inr rfl) (by with_unfolding_all rfl) rfl⟩

/-! ### Claim C8 -/

/-- C8 (frame property): a successful `_execute_order` call never touches
the equity curve, and it either leaves the whole state unchanged, opens a
position (cash and positions mutate, trades do not), or closes one (cash
and trades mutate, the position is erased); each ignored branch —
`buy`/`sell` on an occupied symbol, `close` with no position, non-positive
computed quantity — returns the state unchanged. -/
theorem execute_order_frame :
    (∀ (data : MarketData) (t : ℕ) (st : TState) (o : Order) (st' : TState),
      execute_order data t st o = .ok st' →
      st'.equity_curve = st.equity_curve ∧
      (st' = st ∨
        (∃ c alloc dir,
          st' = openResult st o.symbol t dir (o.price.getD c) alloc ∧
          st'.trades = st.trades ∧
          st'.positions.length = st.positions.length + 1 ∧
          st'.cash = st.cash -
            pyInt (st.cash * alloc / o.price.getD c) * o.price.getD c) ∨
        (∃ c p,
          st.positions.lookup o.symbol = some p ∧
          st' = closeResult st o.symbol t (o.price.getD c) p ∧
          st'.positions = st.positions.eraseP (fun kv => kv.1 == o.symbol) ∧
          st'.trades = st.trades ++ [closeTrade o.symbol t (o.price.getD c) p] ∧
          st'.cash = st.cash + p.entry_price * p.quantity +
            closePnl (o.price.getD c) p))) ∧
    (∀ (data : MarketData) (t : ℕ) (st : TState) (o : Order) (c : ℚ),
      findBar data o.symbol t = some c →
      ((o.action = "buy" ∨ o.action = "sell") →
        (st.positions.lookup o.symbol).isSome →
        execute_order data t st o = .ok st) ∧
      (o.action = "close" → st.positions.lookup o.symbol = none →
        execute_order data t st o = .ok st) ∧
      (∀ alloc, (o.action = "buy" ∨ o.action = "sell") →
        st.positions.lookup o.symbol = none →
        o.cash_allocation = some alloc →
        ¬ 0 < pyInt (st.cash * alloc / o.price.getD c) →
        execute_order data t st o = .ok st)) := by
  constructor
  · intro data t st o st' h
    refine ⟨equity_curve_step h, ?_⟩
    rcases execute_order_ok_cases h with rfl |
        ⟨c, alloc, dir, hbar, halloc, hpos, hact, hq, rfl⟩ |
        ⟨c, p, hbar, hact, hpos, rfl⟩
    · exact Or.inl rfl
    · exact Or.inr (Or.inl ⟨c, alloc, dir, rfl, rfl, by simp [openResult], rfl⟩)
    · exact Or.inr (Or.inr ⟨c, p, hpos, rfl, rfl, rfl, rfl⟩)
  · intro data t st o c hbar
    exact ⟨fun hact hpos => execute_order_open_occupied hbar hact hpos,
      fun hact hpos => execute_order_close_none hbar hact hpos,
      fun alloc hact hpos halloc hq =>
        execute_order_open_dropped hbar hact hpos halloc hq⟩

/-- Witness for C8: the demo buy leaves the equity curve untouched, a
`close` with no open position is a no-op, and a repeated `buy` on an
occupied symbol is a no-op. -/
theorem execute_order_frame_witness :
    demoPostBuy.equity_curve = (initState 10000).equity_curve ∧
    execute_order demoData 0 (initState 10000) demoClose = .ok (initState 10000) ∧
    execute_order demoData 1 demoPostBuy demoBuy = .ok demoPostBuy := by
  refine ⟨?_, ?_, ?_⟩
  · exact (execute_order_frame.1 demoData 0 (initState 10000) demoBuy demoPostBuy
      (by with_unfolding_all rfl)).1
  · exact (execute_order_frame.2 demoData 0 (initState 10000) demoClose 100
      (by with_unfolding_all rfl)).2.1 rfl (by with_unfolding_all rfl)
  · exact (execute_order_frame.2 demoData 1 demoPostBuy demoBuy 110
      (by with_unfolding_all rfl)).1 (Or.inl rfl) (by with_unfolding_all rfl)

/-! ### Claim C4 -/

/-- `_calculate_equity` computes cash plus the mark-to-market sum over the
open positions that have a bar in the snapshot. -/
theorem calculate_equity_markSum (bars : List (String × ℚ)) (st : TState) :
    calculate_equity bars st = st.cash + markSum bars st.positions := by
  rcases st with ⟨cash, positions, trades, curve⟩
  dsimp only [calculate_equity, markSum]
  induction positions generalizing cash with
  | nil => simp
  | cons kv rest ih =>
    rcases hb : bars.lookup kv.1 with _ | price
    · simp only [List.foldl_cons, List.filterMap_cons, hb]
      exact ih cash
    · rcases hd : kv.2.direction <;>
        simp only [List.foldl_cons, List.filterMap_cons, hb, hd, Option.map_some] <;>
        simp only [ih, List.sum_cons, if_pos, if_neg, reduceCtorEq] <;>
        ring_nf <;>
        simp [ih]
      all_goals ring

/-- C4 (equity accounting): every bar processed by the `run` loop appends to
the equity series exactly the value
`cash + Σ (long: qty × close, short: qty × (2 × entry − close))` over the
open positions whose symbol has a bar at that timestamp, with the ledger
state taken after that bar's orders; the loop appends exactly one sample
per bar. -/
theorem equity_accounting :
    (∀ (data : MarketData) (symbols : List String) (strat : Strategy)
      (st : TState) (t : ℕ) (st' : TState),
      runBar data symbols strat st t = .ok st' →
      st'.equity_curve = st.equity_curve ++
        [(t, st'.cash + markSum (snapshot data symbols t) st'.positions)]) ∧
    (∀ (data : MarketData) (symbols : List String) (strat : Strategy)
      (ts : List ℕ) (st st' : TState),
      runLoop data symbols strat ts st = .ok st' →
      st'.equity_curve.length = st.equity_curve.length + ts.length) := by
  have hbar0 : ∀ (data : MarketData) (symbols : List String) (strat : Strategy)
      (st : TState) (t : ℕ) (st' : TState),
      runBar data symbols strat st t = .ok st' →
      st'.equity_curve = st.equity_curve ++
        [(t, st'.cash + markSum (snapshot data symbols t) st'.positions)] := by
    intro data symbols strat st t st' h
    unfold runBar at h
    dsimp only at h
    rcases ho : runOrders data
        ((strat t (snapshot data symbols t) st).map fun o => (t, o)) st with e | st1
    · rw [ho] at h
      exact absurd h (by simp)
    · rw [ho] at h
      cases h
      have hcurve := equity_curve_runOrders _ _ _ ho
      simp [hcurve, calculate_equity_markSum]
  refine ⟨hbar0, ?_⟩
  intro data symbols strat ts
  induction ts with
  | nil =>
    intro st st' h
    have : st = st' := by simpa [runLoop] using h
    rw [this]
    simp
  | cons t ts ih =>
    intro st st' h
    rcases hb : runBar data symbols strat st t with e | st1
    · simp [runLoop, hb] at h
    · have h2 : runLoop data symbols strat ts st1 = .ok st' := by
        simpa [runLoop, hb] using h
      have hlen : st1.equity_curve.length = st.equity_curve.length + 1 := by
        rw [hbar0 data symbols strat st t st1 hb]
        simp
      rw [ih st1 st' h2, hlen]
      simp [Nat.add_assoc, Nat.add_comm 1]

/-- The demo strategy: buy `SPY` with full allocation at `t = 0`. -/
def demoStrategy : Strategy := fun t _ _ => if t = 0 then [demoBuy] else []

/-- The state after the `t = 0` bar of the demo run: the buy filled and one
equity sample recorded at the mark-to-market value 10000. -/
def demoPostBar : TState := { demoPostBuy with equity_curve := [(0, 10000)] }

/-- Witness for C4: the first bar of the demo run appends exactly the
mark-to-market equity sample. -/
theorem equity_accounting_witness :
    demoPostBar.equity_curve =
      (initState 10000).equity_curve ++
        [(0, demoPostBar.cash + markSum (snapshot demoData ["SPY"] 0) demoPostBar.positions)] :=
  equity_accounting.1 demoData ["SPY"] demoStrategy (initState 10000) 0 demoPostBar
    (by with_unfolding_all rfl)

/-! ### Claim C6 -/

/-- Two closed trades whose entry-time portfolio weights are both 0. -/
def zeroWeightTrades : List Trade :=
  [{ symbol := "A", direction := .long, entry_time := 0, entry_price := 100,
     exit_time := 1, exit_price := 110, quantity := 1, pnl := 10,
     return_pct := 1 / 10, portfolio_weight := 0 },
   { symbol := "B", direction := .long, entry_time := 0, entry_price := 100,
     exit_time := 1, exit_price := 130, quantity := 1, pnl := 30,
     return_pct := 3 / 10, portfolio_weight := 0 }]

/-- Counterexample to C6 as stated: when the weights sum to 0, `get_stats`
keeps the raw zero weights — it does not fall back to uniform `1/n` — so
the weighted mean return is 0 rather than the uniform mean `1/5`. -/
theorem weight_normalization_counterexample :
    weightsSum zeroWeightTrades = 0 ∧
    normalizedWeights zeroWeightTrades = [0, 0] ∧
    normalizedWeights zeroWeightTrades ≠
      List.replicate zeroWeightTrades.length (1 / (zeroWeightTrades.length : ℚ)) ∧
    weighted_mean_return zeroWeightTrades = 0 ∧
    ((returnsOf zeroWeightTrades).map fun r =>
      r * (1 / (zeroWeightTrades.length : ℚ))).sum = 1 / 5 :=
  ⟨by with_unfolding_all rfl, by with_unfolding_all rfl,
   of_decide_eq_true (by with_unfolding_all rfl),
   by with_unfolding_all rfl, by with_unfolding_all rfl⟩

theorem sum_map_div (l : List ℚ) (c : ℚ) : (l.map fun w => w / c).sum = l.sum / c := by
  induction l with
  | nil => simp
  | cons a l ih => simp [ih, add_div]

/-- C6 amended: when the weights sum is positive the weights are normalized
to sum to 1 before the weighted mean and variance are computed; when the
sum is not positive (including 0) the raw weights are used unchanged — there
is no uniform `1/n` fallback for the whole trade log. -/
theorem weight_normalization (trades : List Trade) :
    (0 < weightsSum trades →
      (normalizedWeights trades).sum = 1 ∧
      normalizedWeights trades = (weightsOf trades).map fun w => w / weightsSum trades) ∧
    (¬ 0 < weightsSum trades → normalizedWeights trades = weightsOf trades) ∧
    weighted_mean_return trades =
      (List.zipWith (fun r w => r * w) (returnsOf trades) (normalizedWeights trades)).sum ∧
    weighted_variance trades =
      (List.zipWith (fun w r => w * (r - weighted_mean_return trades) ^ 2)
        (normalizedWeights trades) (returnsOf trades)).sum := by
  refine ⟨fun h => ⟨?_, ?_⟩, fun h => ?_, rfl, rfl⟩
  · rw [normalizedWeights, if_pos h, sum_map_div]
    exact div_self (ne_of_gt h)
  · rw [normalizedWeights, if_pos h]
  · rw [normalizedWeights, if_neg h]

/-- Two closed trades with positive total weight: one win (weight 1,
return 10%, pnl 100) and one loss (weight 3, return −10%, pnl −100). -/
def demoTrades : List Trade :=
  [{ symbol := "A", direction := .long, entry_time := 0, entry_price := 100,
     exit_time := 1, exit_price := 110, quantity := 10, pnl := 100,
     return_pct := 1 / 10, portfolio_weight := 1 },
   { symbol := "B", direction := .long, entry_time := 0, entry_price := 100,
     exit_time := 1, exit_price := 90, quantity := 10, pnl := -100,
     return_pct := -1 / 10, portfolio_weight := 3 }]

/-- Witness for the amended C6: with weights 1 and 3 the normalized weights
are `w / 4` and sum to 1. -/
theorem weight_normalization_witness :
    (normalizedWeights demoTrades).sum = 1 ∧
    normalizedWeights demoTrades =
      (weightsOf demoTrades).map fun w => w / weightsSum demoTrades :=
  (weight_normalization demoTrades).1 (of_decide_eq_true (by with_unfolding_all rfl))

/-! ### Claim C7 -/

/-- Two losing trades (negative returns) whose dollar pnl sums to 0.
Reachable: a position opened at a negative override price with negative
cash has a negative return but positive pnl. -/
def offsetLossTrades : List Trade :=
  [{ symbol := "A", direction := .long, entry_time := 0, entry_price := -100,
     exit_time := 1, exit_price := -90, quantity := 1, pnl := 10,
     return_pct := -1 / 10, portfolio_weight := 1 },
   { symbol := "B", direction := .long, entry_time := 0, entry_price := 100,
     exit_time := 1, exit_price := 90, quantity := 1, pnl := -10,
     return_pct := -1 / 10, portfolio_weight := 1 }]

/-- Counterexample to C7 as stated: losing trades exist here, yet the
profit factor is `np.inf`, not the ratio of summed pnls — the code also
requires the losing pnl sum to be nonzero. -/
theorem stats_fallback_counterexample :
    0 < (losses offsetLossTrades).length ∧
    lossesPnlSum offsetLossTrades = 0 ∧
    profit_factor offsetLossTrades = PyVal.inf ∧
    PyVal.inf ≠
      PyVal.val |winsPnlSum offsetLossTrades / lossesPnlSum offsetLossTrades| :=
  ⟨by with_unfolding_all decide, by with_unfolding_all rfl,
   by with_unfolding_all rfl, by simp⟩

/-- C7 amended: for every non-empty trade log the Sharpe ratio is
`mean / √variance × √252` when the weighted variance is positive and 0
otherwise; the profit factor is `|Σ win pnl / Σ loss pnl|` when losing
trades exist *and their pnl sum is nonzero*, and `np.inf` otherwise; the
Calmar ratio is `total_return / |max_drawdown|` when the max drawdown is
nonzero and `np.inf` when it is exactly 0; every one of these paths returns
a value instead of propagating an error. -/
theorem stats_fallbacks (trades : List Trade) (curve : List (ℕ × ℚ)) (c0 : ℚ)
    (htr : trades ≠ []) :
    (0 < weighted_variance trades →
      sharpe trades = (weighted_mean_return trades : ℝ) /
        Real.sqrt (weighted_variance trades) * Real.sqrt 252) ∧
    (¬ 0 < weighted_variance trades → sharpe trades = 0) ∧
    (0 < (losses trades).length ∧ lossesPnlSum trades ≠ 0 →
      profit_factor trades = .val |winsPnlSum trades / lossesPnlSum trades|) ∧
    (losses trades = [] ∨ lossesPnlSum trades = 0 → profit_factor trades = .inf) ∧
    (max_drawdown (curve.map Prod.snd) ≠ 0 →
      calmar curve c0 =
        .val (total_return curve c0 / |max_drawdown (curve.map Prod.snd)|)) ∧
    (max_drawdown (curve.map Prod.snd) = 0 → calmar curve c0 = .inf) := by
  refine ⟨fun hv => ?_, fun hv => ?_, fun hl => ?_, fun hl => ?_,
    fun hd => ?_, fun hd => ?_⟩
  · have hv' : (0 : ℝ) < (weighted_variance trades : ℚ) := by exact_mod_cast hv
    have hstd : weighted_std trades = Real.sqrt (weighted_variance trades) := by
      rw [weighted_std, if_pos hv]
    rw [sharpe, hstd, if_pos (Real.sqrt_pos.mpr hv')]
  · have hstd : weighted_std trades = 0 := by rw [weighted_std, if_neg hv]
    rw [sharpe, hstd, if_neg (lt_irrefl 0)]
  · rw [profit_factor, if_pos hl]
  · rw [profit_factor, if_neg]
    rcases hl with hl | hl
    · simp [hl]
    · simp [hl]
  · rw [calmar, if_pos hd]
  · rw [calmar, if_neg (by simpa using hd)]

/-- Curve for the C7 witness: running max 12000, max drawdown −1/4. -/
def demoCurve : List (ℕ × ℚ) := [(0, 10000), (1, 12000), (2, 9000)]

/-- Witness for the amended C7 at concrete inputs: positive variance gives
the sqrt-formula Sharpe, a nonzero losing pnl sum gives the finite profit
factor, and a −25% drawdown gives the finite Calmar ratio. -/
theorem stats_fallbacks_witness :
    sharpe demoTrades = (weighted_mean_return demoTrades : ℝ) /
      Real.sqrt (weighted_variance demoTrades) * Real.sqrt 252 ∧
    profit_factor demoTrades =
      .val |winsPnlSum demoTrades / lossesPnlSum demoTrades| ∧
    calmar demoCurve 10000 =
      .val (total_return demoCurve 10000 / |max_drawdown (demoCurve.map Prod.snd)|) := by
  have h := stats_fallbacks demoTrades demoCurve 10000 (by simp [demoTrades])
  exact ⟨h.1 (of_decide_eq_true (by with_unfolding_all rfl)),
    h.2.2.1 ⟨by with_unfolding_all decide, of_decide_eq_true (by with_unfolding_all rfl)⟩,
    h.2.2.2.2.1 (of_decide_eq_true (by with_unfolding_all rfl))⟩

/-! ### Claim C9 -/

section SortLemmas

variable {α : Type} {le : α → α → Bool}

theorem perm_insertSorted (a : α) (l : List α) :
    (insertSorted le a l).Perm (a :: l) := by
  induction l with
  | nil => simp [insertSorted]
  | cons b bs ih =>
    by_cases hab : le a b = true
    · rw [insertSorted, if_pos hab]
    · rw [insertSorted, if_neg hab]
      exact (ih.cons b).trans (List.Perm.swap a b bs)

theorem perm_isort (l : List α) : (isort le l).Perm l := by
  induction l with
  | nil => simp [isort]
  | cons a l ih =>
    exact (perm_insertSorted a (isort le l)).trans (ih.cons a)

theorem pairwise_insertSorted
    (htot : ∀ a b, le a b = true ∨ le b a = true)
    (htrans : ∀ a b c, le a b = true → le b c = true → le a c = true)
    (a : α) (l : List α) (hl : l.Pairwise fun x y => le x y = true) :
    (insertSorted le a l).Pairwise fun x y => le x y = true := by
  induction l with
  | nil => simp [insertSorted]
  | cons b bs ih =>
    rw [List.pairwise_cons] at hl
    by_cases hab : le a b = true
    · rw [insertSorted, if_pos hab]
      refine List.Pairwise.cons ?_ (List.pairwise_cons.mpr hl)
      intro x hx
      rcases List.mem_cons.mp hx with rfl | hx
      · exact hab
      · exact htrans a b x hab (hl.1 x hx)
    · rw [insertSorted, if_neg hab]
      have hba : le b a = true := (htot a b).resolve_left hab
      refine List.Pairwise.cons ?_ (ih hl.2)
      intro x hx
      rcases List.mem_cons.mp ((perm_insertSorted a bs).mem_iff.mp hx) with rfl | hx
      · exact hba
      · exact hl.1 x hx

theorem pairwise_isort
    (htot : ∀ a b, le a b = true ∨ le b a = true)
    (htrans : ∀ a b c, le a b = true → le b c = true → le a c = true)
    (l : List α) :
    (isort le l).Pairwise fun x y => le x y = true := by
  induction l with
  | nil => simp [isort]
  | cons a l ih => exact pairwise_insertSorted htot htrans a (isort le l) ih

end SortLemmas

/-- The driver invariant of `optimize_parameters`: a traced combination
with non-empty statistics is cached under its key, no such combination is
backtested twice, and `all_results` holds exactly the traced combinations
with non-empty statistics, in order, each with its statistics. -/
def OptInv (bt : Backtest) (st : OptState) : Prop :=
  (∀ p, p ∈ st.trace → bt p ≠ [] → get_cache_key p ∈ st.cache.map Prod.fst) ∧
  (∀ p, bt p ≠ [] → st.trace.count p ≤ 1) ∧
  st.all_results = (st.trace.filter fun p => decide (bt p ≠ [])).map fun p => (p, bt p)

section OptimizerLemmas

variable {bt : Backtest}

theorem tryValue_inv {st : OptState} (p : Params) (h : OptInv bt st) :
    OptInv bt (tryValue bt st p).1 := by
  obtain ⟨hA, hB, hC⟩ := h
  rcases hc : st.cache.lookup (get_cache_key p) with _ | stats
  · by_cases hs : bt p ≠ []
    · have hkey : get_cache_key p ∉ st.cache.map Prod.fst := by
        intro hmem
        have hcount : p ∉ st.trace := by
          intro htr
          exact lookup_none_not_mem_keys st.cache (get_cache_key p) hc (hA p htr hs)
        exact lookup_none_not_mem_keys st.cache (get_cache_key p) hc hmem
      have hptr : p ∉ st.trace := fun htr =>
        lookup_none_not_mem_keys st.cache (get_cache_key p) hc (hA p htr hs)
      refine ⟨?_, ?_, ?_⟩ <;>
        simp only [tryValue, hc, if_pos hs]
      · intro q hq hqs
        simp only [List.mem_append, List.mem_singleton] at hq
        simp only [List.map_append]
        rcases hq with hq | rfl
        · exact List.mem_append_left _ (hA q hq hqs)
        · exact List.mem_append_right _ (by simp)
      · intro q hqs
        rcases eq_or_ne q p with rfl | hqp
        · rw [List.count_append]
          have : st.trace.count q = 0 := List.count_eq_zero.mpr hptr
          simp [this]
        · rw [List.count_append]
          have : List.count q [p] = 0 := by
            simp [List.count_singleton, hqp]
          simpa [this] using hB q hqs
      · rw [hC, List.filter_append, List.map_append]
        simp [hs]
    · push_neg at hs
      refine ⟨?_, ?_, ?_⟩ <;>
        simp only [tryValue, hc, hs, ne_eq, not_true_eq_false, if_neg,
          ite_false, reduceIte]
      · intro q hq hqs
        simp only [List.mem_append, List.mem_singleton] at hq
        rcases hq with hq | rfl
        · exact hA q hq hqs
        · exact absurd hs (by simpa using hqs)
      · intro q hqs
        rw [List.count_append]
        have : List.count q [p] = 0 := by
          rcases eq_or_ne q p with rfl | hqp
          · exact absurd hs (by simpa using hqs)
          · simp [List.count_singleton, hqp]
        simpa [this] using hB q hqs
      · rw [hC, List.filter_append]
        simp [hs]
  · refine ⟨?_, ?_, ?_⟩ <;> simp only [tryValue, hc] <;>
      first
      | exact hA
      | exact hB
      | exact hC

theorem sweepValues_inv (name : String) (values : List ℚ) :
    ∀ (st : OptState) (acc : List (Params × Stats)), OptInv bt st →
      OptInv bt (values.foldl
        (fun acc v =>
          let p := setParam acc.1.current_best name v
          let (st', r) := tryValue bt acc.1 p
          (st', acc.2 ++ r.toList)) (st, acc)).1 := by
  induction values with
  | nil => intro st acc h; exact h
  | cons v vs ih =>
    intro st acc h
    simp only [List.foldl_cons]
    have h' : OptInv bt (tryValue bt st (setParam st.current_best name v)).1 :=
      tryValue_inv (setParam st.current_best name v) h
    exact ih _ _ h'

theorem sweepValues_inv_apply (name : String) (values : List ℚ)
    (st : OptState) (h : OptInv bt st) :
    OptInv bt (sweepValues bt name values st).1 := by
  unfold sweepValues
  exact sweepValues_inv name values st [] h

theorem sweepParam_inv (grid : List (String × List ℚ)) (metric : String)
    (st : OptState) (name : String) (h : OptInv bt st) :
    OptInv bt (sweepParam bt grid metric st name) := by
  unfold sweepParam
  have h' := sweepValues_inv_apply name ((grid.lookup name).getD []) st h
  rcases hsv : sweepValues bt name ((grid.lookup name).getD []) st with ⟨st1, prs⟩
  rw [hsv] at h'
  dsimp only at h' ⊢
  rcases hm : idxmaxRow metric prs with _ | best_row
  · exact h'
  · exact ⟨h'.1, h'.2.1, h'.2.2⟩

theorem sweepPass_inv (grid : List (String × List ℚ)) (metric : String)
    (names : List String) :
    ∀ (st : OptState), OptInv bt st →
      OptInv bt (sweepPass bt grid metric names st) := by
  induction names with
  | nil => intro st h; exact h
  | cons n ns ih =>
    intro st h
    exact ih _ (sweepParam_inv grid metric st n h)

theorem optLoop_inv (grid : List (String × List ℚ)) (metric : String)
    (names : List String) :
    ∀ (fuel : ℕ) (st : OptState), OptInv bt st →
      OptInv bt (optLoop bt grid metric names fuel st) := by
  intro fuel
  induction fuel with
  | zero => intro st h; exact h
  | succ n ih =>
    intro st h
    show OptInv bt (if (sweepPass bt grid metric names st).current_best = st.current_best
      then sweepPass bt grid metric names st
      else optLoop bt grid metric names n (sweepPass bt grid metric names st))
    split
    · exact sweepPass_inv grid metric names st h
    · exact ih _ (sweepPass_inv grid metric names st h)

end OptimizerLemmas

/-- Unfolding equation for `optimize_parameters`. -/
theorem optimize_parameters_def (bt : Backtest) (grid : List (String × List ℚ))
    (metric : String) (max_passes : ℕ) :
    optimize_parameters bt grid metric max_passes =
      (isort (fun a b => decide (metricOf metric b ≤ metricOf metric a))
        (optLoop bt grid metric (grid.map Prod.fst) max_passes
          { cache := [], all_results := [],
            current_best := (grid.map Prod.fst).map fun n =>
              (n, get_default_value ((grid.lookup n).getD [])),
            trace := [] }).all_results,
       optLoop bt grid metric (grid.map Prod.fst) max_passes
        { cache := [], all_results := [],
          current_best := (grid.map Prod.fst).map fun n =>
            (n, get_default_value ((grid.lookup n).getD [])),
          trace := [] }) := rfl

/-- C9 amended: in every `optimize_parameters` run, a parameter combination
whose statistics are non-empty is backtested at most once (repeats are
served from the cache), the returned rows contain exactly one row per
distinct combination evaluated with non-empty statistics (a combination
whose backtest yields empty statistics is never cached, may be re-run, and
produces no row), and the rows are sorted descending by the chosen
metric. -/
theorem optimize_parameters_spec (bt : Backtest) (grid : List (String × List ℚ))
    (metric : String) (max_passes : ℕ) (p : Params) :
    (bt p ≠ [] → (optimize_parameters bt grid metric max_passes).2.trace.count p ≤ 1) ∧
    ((optimize_parameters bt grid metric max_passes).1.map Prod.fst).count p =
      (if p ∈ (optimize_parameters bt grid metric max_passes).2.trace ∧ bt p ≠ []
       then 1 else 0) ∧
    ((optimize_parameters bt grid metric max_passes).1.Pairwise fun x y =>
      metricOf metric y ≤ metricOf metric x) := by
  rw [optimize_parameters_def]
  set st := optLoop bt grid metric (grid.map Prod.fst) max_passes
    { cache := [], all_results := [],
      current_best := (grid.map Prod.fst).map fun n =>
        (n, get_default_value ((grid.lookup n).getD [])),
      trace := [] } with hst
  have hinv : OptInv bt st :=
    optLoop_inv grid metric (grid.map Prod.fst) max_passes _ ⟨by simp, by simp, rfl⟩
  obtain ⟨hA, hB, hC⟩ := hinv
  have hperm : ((isort (fun a b => decide (metricOf metric b ≤ metricOf metric a))
      st.all_results).map Prod.fst).Perm (st.all_results.map Prod.fst) :=
    (perm_isort st.all_results).map Prod.fst
  have hpermCount : ∀ l₁ l₂ : List Params, l₁.Perm l₂ → l₁.count p = l₂.count p := by
    intro l₁ l₂ h
    simpa [List.count] using h.countP_eq (· == p)
  have hcount : ((isort (fun a b => decide (metricOf metric b ≤ metricOf metric a))
      st.all_results).map Prod.fst).count p
        = (st.trace.filter fun q => decide (bt q ≠ [])).count p := by
    rw [hpermCount _ _ hperm, hC]
    simp [List.map_map, Function.comp_def]
  refine ⟨fun hp => hB p hp, ?_, ?_⟩
  · rw [hcount]
    by_cases hp : bt p ≠ []
    · by_cases hmem : p ∈ st.trace
      · rw [if_pos ⟨hmem, hp⟩]
        have h1 : 0 < (st.trace.filter fun q => decide (bt q ≠ [])).count p :=
          List.count_pos_iff.mpr (List.mem_filter.mpr ⟨hmem, by simpa using hp⟩)
        have h2 : (st.trace.filter fun q => decide (bt q ≠ [])).count p ≤
            st.trace.count p := (List.filter_sublist _).count_le p
        have h3 := hB p hp
        omega
      · rw [if_neg (fun hand => hmem hand.1)]
        refine List.count_eq_zero.mpr fun hmemf => hmem (List.mem_filter.mp hmemf).1
    · push_neg at hp
      rw [if_neg (fun hand => hand.2 hp)]
      refine List.count_eq_zero.mpr fun hmemf => ?_
      have := (List.mem_filter.mp hmemf).2
      simp [hp] at this
  · have htot : ∀ a b : Params × Stats,
        (decide (metricOf metric b ≤ metricOf metric a)) = true ∨
        (decide (metricOf metric a ≤ metricOf metric b)) = true := by
      intro a b
      rcases le_total (metricOf metric b) (metricOf metric a) with h | h
      · exact Or.inl (decide_eq_true h)
      · exact Or.inr (decide_eq_true h)
    have htrans : ∀ a b c : Params × Stats,
        (decide (metricOf metric b ≤ metricOf metric a)) = true →
        (decide (metricOf metric c ≤ metricOf metric b)) = true →
        (decide (metricOf metric c ≤ metricOf metric a)) = true := by
      intro a b c hab hbc
      exact decide_eq_true (le_trans (of_decide_eq_true hbc) (of_decide_eq_true hab))
    exact (pairwise_isort htot htrans st.all_results).imp fun h => of_decide_eq_true h

/-- The grid of the C9 counterexample: two parameters with values {1, 2}. -/
def cexGrid : List (String × List ℚ) := [("a", [1, 2]), ("b", [1, 2])]

/-- The backtest oracle of the C9 counterexample: `{a:1, b:2}` scores 5,
`{a:2, b:2}` scores 3, every other combination has no trades, so its
`get_stats` dict is empty (falsy). -/
def cexBacktest : Backtest := fun p =>
  if p = [("a", 1), ("b", 2)] then [("m", 5)]
  else if p = [("a", 2), ("b", 2)] then [("m", 3)]
  else []

/-- Counterexample to C9 as stated: the combination `{a:1, b:1}` (empty
statistics) is backtested twice in a single `optimize_parameters` run —
empty statistics are never cached — and it yields no row in the returned
results. -/
theorem optimize_parameters_counterexample :
    (optimize_parameters cexBacktest cexGrid "m" 10).2.trace.count
      [("a", 1), ("b", 1)] = 2 ∧
    [("a", 1), ("b", 1)] ∉
      ((optimize_parameters cexBacktest cexGrid "m" 10).1.map Prod.fst) :=
  ⟨by with_unfolding_all rfl, of_decide_eq_true (by with_unfolding_all rfl)⟩

/-- Witness for the amended C9 at the concrete grid: the high-scoring
combination is backtested once only and yields exactly one row. -/
theorem optimize_parameters_spec_witness :
    ((optimize_parameters cexBacktest cexGrid "m" 10).2.trace.count
      [("a", 1), ("b", 2)] ≤ 1) ∧
    (((optimize_parameters cexBacktest cexGrid "m" 10).1.map Prod.fst).count
      [("a", 1), ("b", 2)] =
      if [("a", 1), ("b", 2)] ∈ (optimize_parameters cexBacktest cexGrid "m" 10).2.trace ∧
         cexBacktest [("a", 1), ("b", 2)] ≠ [] then 1 else 0) ∧
    ((optimize_parameters cexBacktest cexGrid "m" 10).1.Pairwise fun x y =>
      metricOf "m" y ≤ metricOf "m" x) :=
  ⟨(optimize_parameters_spec cexBacktest cexGrid "m" 10 [("a", 1), ("b", 2)]).1
      (of_decide_eq_true (by with_unfolding_all rfl)),
   (optimize_parameters_spec cexBacktest cexGrid "m" 10 [("a", 1), ("b", 2)]).2.1,
   (optimize_parameters_spec cexBacktest cexGrid "m" 10 [("a", 1), ("b", 2)]).2.2⟩

end QC
